import Mathlib

/-!
Verification of the RepoLens indexing pipeline (chunking, caching,
rate-limited embedding, watcher) against its specification.

The Python sources are shallowly embedded: pure functions become Lean
functions over `String`/`List`, Python `int` becomes `Int` (or `Nat`
where the value is provably a list index), fallible steps become
`Except`, and the thread-based rate limiter becomes a step relation on
an explicit state.  Strings are manipulated through their `List Char`
data so that concrete inputs evaluate inside the kernel.
-/

namespace RepoLens

/-! ## Python string primitives

Helpers mirroring the Python `str` operations used by the sources
(`strip`, `splitlines`, `split`, `count`, `in`, `startswith`,
`endswith`, `join`, slicing).  Only the ASCII fragment matters for the
inputs considered here; `\w` and whitespace classes are modelled on
their ASCII parts.
-/

/-- Python whitespace (`str.strip`, `\s`, `str.split()`): space, tab,
newline, carriage return, vertical tab, form feed. -/
def isPySpace (c : Char) : Bool :=
  c = ' ' || c = '\t' || c = '\n' || c = '\r' || c = '\x0b' || c = '\x0c'

/-- Regex `\w` (ASCII part): letters, digits, underscore. -/
def isWordChar (c : Char) : Bool :=
  c.isAlphanum || c = '_'

/-- Tests whether `needle` occurs as a prefix of `hay`. -/
def listStartsWith : List Char → List Char → Bool
  | [], _ => true
  | _ :: _, [] => false
  | a :: as, b :: bs => a = b && listStartsWith as bs

/-- Tests whether `needle` occurs as a contiguous substring of `hay` (Python `in`). -/
def listInfix (needle : List Char) : List Char → Bool
  | [] => needle.isEmpty
  | c :: t => listStartsWith needle (c :: t) || listInfix needle t

/-- Python `needle in hay` on strings. -/
def strContains (hay needle : String) : Bool :=
  listInfix needle.data hay.data

/-- Python `s.startswith(p)`. -/
def strStartsWith (s p : String) : Bool :=
  listStartsWith p.data s.data

/-- Python `s.endswith(p)`. -/
def strEndsWith (s p : String) : Bool :=
  listStartsWith p.data.reverse s.data.reverse

/-- Python `s.count(c)` for a single character. -/
def charCount (s : String) (c : Char) : Nat :=
  s.data.countP (· = c)

/-- Python `s.strip()`. -/
def pyStrip (s : String) : String :=
  String.mk (((s.data.dropWhile isPySpace).reverse.dropWhile isPySpace).reverse)

/-- Python `s[:n]` (character slicing). -/
def strTake (s : String) (n : Nat) : String :=
  String.mk (s.data.take n)

/-- Line-break characters recognised by Python `str.splitlines`. -/
def isLineBreak (c : Char) : Bool :=
  c = '\n' || c = '\r' || c = '\x0b' || c = '\x0c' ||
  c = '\x1c' || c = '\x1d' || c = '\x1e' || c = '\x85' ||
  c = Char.ofNat 0x2028 || c = Char.ofNat 0x2029

/-- Split on line breaks, treating `\r\n` as one boundary; keeps a
trailing empty segment (removed by `pySplitlines`). -/
def splitBreaksAux : List Char → List (List Char)
  | [] => [[]]
  | '\r' :: '\n' :: cs => [] :: splitBreaksAux cs
  | c :: cs =>
    if isLineBreak c then [] :: splitBreaksAux cs
    else
      match splitBreaksAux cs with
      | [] => [[c]]
      | l :: ls => (c :: l) :: ls

/-- Python `s.splitlines()`: empty string gives `[]`, and a trailing
line break does not produce a trailing empty line. -/
def pySplitlines (s : String) : List String :=
  match s.data with
  | [] => []
  | c :: cs =>
    let parts := splitBreaksAux (c :: cs)
    let parts := if isLineBreak ((c :: cs).getLast (by simp)) then parts.dropLast else parts
    parts.map String.mk

/-- Split on a single separator character, Python `s.split(sep)`:
keeps empty segments, `"".split(sep) = [""]`. -/
def splitOnCharAux (sep : Char) : List Char → List (List Char)
  | [] => [[]]
  | c :: cs =>
    if c = sep then [] :: splitOnCharAux sep cs
    else
      match splitOnCharAux sep cs with
      | [] => [[c]]
      | l :: ls => (c :: l) :: ls

/-- Python `s.split(sep)` for a one-character separator. -/
def pySplitOnChar (s : String) (sep : Char) : List String :=
  (splitOnCharAux sep s.data).map String.mk

/-- Python `s.split()` (no argument): split on whitespace runs,
dropping empty pieces. -/
def pyWordsAux : List Char → List Char → List String
  | [], acc => if acc.isEmpty then [] else [String.mk acc.reverse]
  | c :: cs, acc =>
    if isPySpace c then
      if acc.isEmpty then pyWordsAux cs []
      else String.mk acc.reverse :: pyWordsAux cs []
    else pyWordsAux cs (c :: acc)

def pyWords (s : String) : List String :=
  pyWordsAux s.data []

/-- Python `sep.join(parts)`. -/
def joinSep (sep : String) : List String → String
  | [] => ""
  | [p] => p
  | p :: ps => p ++ sep ++ joinSep sep ps

/-- Python `lines[a:b]` where `a` is a non-negative index and `b` may
be negative (counted from the end) — clamping semantics. -/
def pySliceNat {α : Type} (l : List α) (a : Nat) (b : Int) : List α :=
  let stop : Nat := if b < 0 then ((l.length : Int) + b).toNat else b.toNat
  (l.take stop).drop a

/-- Replace the last element of a list, if any. -/
def updateLast {α : Type} (f : α → α) : List α → List α
  | [] => []
  | [a] => [f a]
  | a :: as => a :: updateLast f as

/-- Association-list lookup (models a dict / SQL primary-key read). -/
def alistGet {β : Type} (m : List (String × β)) (k : String) : Option β :=
  (m.find? (fun p => p.1 = k)).map (·.2)

/-- Insert-or-replace on an association list (models
`INSERT OR REPLACE` and dict assignment). -/
def alistSet {β : Type} (m : List (String × β)) (k : String) (v : β) : List (String × β) :=
  if (m.find? (fun p => p.1 = k)).isSome then
    m.map (fun p => if p.1 = k then (k, v) else p)
  else m ++ [(k, v)]

/-! ## `RateLimitedQueue` (embeddings.py)

`acquire` blocks on a counting `threading.Semaphore(max_concurrent)`
and then applies the minimum-interval gate; `release` (always executed
in a `finally` block by the holder) returns the slot.  The state
abstracts the semaphore counter and the number of callers that have
completed `acquire` but not yet called `release` (the requests "past
the admission gate").  The interval gate and the stats dictionary do
not affect this count.
-/

structure QueueState where
  semCount : Nat
  activeRequests : Nat
  deriving DecidableEq, Repr

/-- Embedding of `RateLimitedQueue.__init__`: the semaphore starts at
`max_concurrent` and nobody is past the gate. -/
def queueInit (maxConcurrent : Nat) : QueueState :=
  ⟨maxConcurrent, 0⟩

/-- One interleaved scheduler step: either some thread completes
`acquire` (only possible when the semaphore counter is positive), or a
thread that is past the gate runs `release`. -/
inductive QueueStep : QueueState → QueueState → Prop
  | acquire (s : QueueState) (h : 0 < s.semCount) :
      QueueStep s ⟨s.semCount - 1, s.activeRequests + 1⟩
  | release (s : QueueState) (h : 0 < s.activeRequests) :
      QueueStep s ⟨s.semCount + 1, s.activeRequests - 1⟩

/-- States reachable by any interleaving of callers. -/
def QueueReachable (maxConcurrent : Nat) (s : QueueState) : Prop :=
  Relation.ReflTransGen QueueStep (queueInit maxConcurrent) s

/-! ## Chunking data model (chunking/base.py)

`BaseChunker` configuration (defaults from consts.py) and `ChunkData`.
`_generate_chunk_id` feeds `hashlib.md5` with an f-string that
interpolates the builtin `hash(content)`; both are process-level
functions (the builtin `hash` on `str` is salted per process via
PYTHONHASHSEED), so they are carried as a `Runtime` parameter.
-/

structure ChunkerCfg where
  max_chunk_lines : Nat := 15
  overlap_lines : Nat := 3
  max_text_length : Nat := 1500
  min_chunk_chars : Nat := 50
  deriving DecidableEq, Repr

/-- consts.py default for `MAX_EMBEDDING_TEXT_LENGTH`. -/
def MAX_EMBEDDING_TEXT_LENGTH : Nat := 1500

structure Runtime where
  md5Hex : String → String
  pyHash : String → Int

structure ChunkData where
  id : String
  content : String
  filepath : String
  context_header : String
  chunk_type : String
  start_line : Int
  end_line : Int
  is_architecture_node : Bool
  embedding_text : String
  summary : String := ""
  file_type : String := ""
  deriving DecidableEq, Repr

/-- The exact string `_generate_chunk_id` digests:
`f"{filepath}:{start_line}:{end_line}:{hash(content)}"`. -/
def generate_chunk_id_input (pyHashContent : Int) (filepath : String)
    (start_line end_line : Int) : String :=
  filepath ++ ":" ++ toString start_line ++ ":" ++ toString end_line ++ ":" ++
    toString pyHashContent

/-- Embedding of `BaseChunker._generate_chunk_id`. -/
def generate_chunk_id (rt : Runtime) (filepath : String) (start_line end_line : Int)
    (content : String) : String :=
  rt.md5Hex (generate_chunk_id_input (rt.pyHash content) filepath start_line end_line)

/-- Embedding of `BaseChunker._create_embedding_text`. -/
def create_embedding_text (context_header filepath chunk_type content : String) : String :=
  "Context: " ++ context_header ++ "\nFile: " ++ filepath ++ "\nType: " ++ chunk_type ++
    "\n\n" ++ content

/-- Embedding of `BaseChunker._truncate_content`. -/
def truncate_content (cfg : ChunkerCfg) (content : String) : String :=
  if content.length > cfg.max_text_length then
    strTake content cfg.max_text_length ++ "\n... [truncated]"
  else content

/-- Loop of `BaseChunker._split_large_content`, iterating `i` by
`max_chunk_lines - overlap_lines`.  `fuel` bounds the iteration count:
with `overlap_lines < max_chunk_lines` at most `lines.length` steps
happen, so the fuel passed by `split_large_content` is never exhausted
(with a non-positive step the Python loop would not terminate). -/
def split_large_aux (rt : Runtime) (cfg : ChunkerCfg) (filepath : String)
    (lines : List String) (start_line : Nat)
    (context_header chunk_type file_type : String)
    (arch_indicators : List String) : Nat → Nat → Nat → List ChunkData
  | _, _, 0 => []
  | i, part, fuel + 1 =>
    if i < lines.length then
      let end_idx := min (i + cfg.max_chunk_lines) lines.length
      let chunk_lines := (lines.take end_idx).drop i
      let content := joinSep "\n" chunk_lines
      let header :=
        if lines.length > cfg.max_chunk_lines then
          context_header ++ " (part " ++ toString part ++ ")"
        else context_header
      let rest := split_large_aux rt cfg filepath lines start_line context_header
        chunk_type file_type arch_indicators
        (i + cfg.max_chunk_lines - cfg.overlap_lines) (part + 1) fuel
      if content.length ≥ cfg.min_chunk_chars then
        let content := truncate_content cfg content
        let is_arch := arch_indicators.any (fun ind => strContains content ind)
        { id := generate_chunk_id rt filepath (start_line + i : Nat)
            ((start_line + end_idx : Nat) - 1 : Int) content
          content := content
          filepath := filepath
          context_header := header
          chunk_type := chunk_type
          start_line := (start_line + i : Nat)
          end_line := ((start_line + end_idx : Nat) - 1 : Int)
          is_architecture_node := is_arch
          embedding_text := create_embedding_text header filepath chunk_type content
          file_type := file_type } :: rest
      else rest
    else []

/-- Embedding of `BaseChunker._split_large_content`. -/
def split_large_content (rt : Runtime) (cfg : ChunkerCfg) (filepath : String)
    (lines : List String) (start_line : Nat)
    (context_header chunk_type file_type : String)
    (arch_indicators : List String) : List ChunkData :=
  split_large_aux rt cfg filepath lines start_line context_header chunk_type file_type
    arch_indicators 0 1 (lines.length + 1)

/-! ## C# chunker (chunking/csharp.py)

The four `PATTERNS` regexes are compiled by hand.  The optional
modifier groups are explored in the engine's backtracking order (group
taken before group skipped); the keyword alternatives are mutually
non-prefix, so at most one literal applies at a position; and since the
whitespace class is contained in the `[\w<>\[\],\s]` class of the
method/property patterns, a `\s*` directly before that class is
absorbed by it, which the translation exploits.
-/

def ARCH_INDICATORS : List String :=
  ["IServiceCollection", "IApplicationBuilder", "IConfiguration",
   "builder.Services", "app.Use", "services.Add",
   "[ApiController]", "[HttpGet", "[HttpPost", "[HttpPut", "[HttpDelete",
   "[Route(", "[Authorize", "DependencyInjection",
   "Startup", "Program.cs", "appsettings"]

/-- Ordered literal alternation: the rest of the input after the first
alternative that is a prefix of it. -/
def tryLits (lits : List String) (cs : List Char) : Option (List Char) :=
  lits.findSome? fun l =>
    if listStartsWith l.data cs then some (cs.drop l.data.length) else none

/-- Candidate remainders of an optional alternation group `(?:...)?`,
in backtracking order: alternative taken first, group skipped second. -/
def optGroup (lits : List String) (cs : List Char) : List (List Char) :=
  match tryLits lits cs with
  | some rest => [rest, cs]
  | none => [cs]

/-- Embedding of `PATTERNS['namespace']`: `^namespace\s+([\w\.]+)` under `re.match`. -/
def matchNamespacePattern (s : String) : Option String :=
  match tryLits ["namespace"] s.data with
  | none => none
  | some rest =>
    let sp := rest.takeWhile isPySpace
    let nm := (rest.drop sp.length).takeWhile (fun c => isWordChar c || c = '.')
    if sp.isEmpty || nm.isEmpty then none else some (String.mk nm)

/-- The keyword-and-name tail `(?:class|interface|struct|record|enum)\s+(\w+)`
of the class pattern, after a `\s*`. -/
def classTail (r2 : List Char) : Option String :=
  match tryLits ["class", "interface", "struct", "record", "enum"]
      (r2.dropWhile isPySpace) with
  | none => none
  | some rest =>
    let sp := rest.takeWhile isPySpace
    let nm := (rest.drop sp.length).takeWhile isWordChar
    if sp.isEmpty || nm.isEmpty then none else some (String.mk nm)

/-- The class pattern after the first optional modifier group. -/
def classAfterMods1 (r1 : List Char) : Option String :=
  (optGroup ["static", "sealed", "abstract", "partial"]
      (r1.dropWhile isPySpace)).findSome? classTail

/-- Embedding of `PATTERNS['class']`:
`^(?:public|private|internal|protected)?\s*(?:static|sealed|abstract|partial)?\s*(?:class|interface|struct|record|enum)\s+(\w+)`. -/
def matchClassPattern (s : String) : Option String :=
  (optGroup ["public", "private", "internal", "protected"] s.data).findSome?
    classAfterMods1

/-- The character class `[\w<>\[\],\s]` shared by the method and
property patterns. -/
def isMethodCls (c : Char) : Bool :=
  isWordChar c || c = '<' || c = '>' || c = '[' || c = ']' || c = ',' || isPySpace c

/-- Decompose the maximal `[\w<>\[\],\s]` run `r` preceding the literal
`(` / `{` as `CLS+ \s+ (\w+) \s*`: the capture is the maximal word run
before the trailing whitespace; it must be preceded directly by
whitespace, with at least one class character before that.  This is
the unique decomposition a backtracking engine can settle on. -/
def tailCapture (r : List Char) : Option String :=
  let rev1 := r.reverse.dropWhile isPySpace
  let revC := rev1.takeWhile isWordChar
  match revC, rev1.drop revC.length with
  | [], _ => none
  | _, [] => none
  | _ :: _, b :: rest =>
    if isPySpace b && !rest.isEmpty then some (String.mk revC.reverse) else none

/-- Core of `PATTERNS['method']` after the optional modifier groups:
`[\w<>\[\],\s]+\s+(\w+)\s*\([^)]*\)`. -/
def methodCore (cs : List Char) : Option String :=
  let r := cs.takeWhile isMethodCls
  match cs.drop r.length with
  | '(' :: tail => if tail.any (· = ')') then tailCapture r else none
  | _ => none

/-- Embedding of `PATTERNS['method']`:
`^(?:public|private|protected|internal)?\s*(?:static|virtual|override|async|abstract)?\s*[\w<>\[\],\s]+\s+(\w+)\s*\([^)]*\)`.
In the group-skipped branch the preceding `\s*` is absorbed into the
class run, so the core is applied to the unstripped remainder. -/
def methodAfterMods1 (r1 : List Char) : Option String :=
  let g2branch :=
    match tryLits ["static", "virtual", "override", "async", "abstract"]
        (r1.dropWhile isPySpace) with
    | some r2 => methodCore r2
    | none => none
  match g2branch with
  | some nm => some nm
  | none => methodCore r1

def matchMethodPattern (s : String) : Option String :=
  (optGroup ["public", "private", "protected", "internal"] s.data).findSome?
    methodAfterMods1

/-- Core of `PATTERNS['property']` after the optional modifier groups:
`[\w<>\[\],\s]+\s+(\w+)\s*{\s*(?:get|set)`. -/
def propertyCore (cs : List Char) : Option String :=
  let r := cs.takeWhile isMethodCls
  match cs.drop r.length with
  | '{' :: tail =>
    let t := tail.dropWhile isPySpace
    if listStartsWith "get".data t || listStartsWith "set".data t then
      tailCapture r
    else none
  | _ => none

/-- Embedding of `PATTERNS['property']`:
`^(?:public|private|protected|internal)?\s*(?:static|virtual|override)?\s*[\w<>\[\],\s]+\s+(\w+)\s*{\s*(?:get|set)`. -/
def propertyAfterMods1 (r1 : List Char) : Option String :=
  let g2branch :=
    match tryLits ["static", "virtual", "override"] (r1.dropWhile isPySpace) with
    | some r2 => propertyCore r2
    | none => none
  match g2branch with
  | some nm => some nm
  | none => propertyCore r1

def matchPropertyPattern (s : String) : Option String :=
  (optGroup ["public", "private", "protected", "internal"] s.data).findSome?
    propertyAfterMods1

structure ClassInfo where
  name : String
  start : Nat
  endLine : Option Int := none
  depth : Int
  deriving DecidableEq, Repr

structure MemberInfo where
  name : String
  start : Nat
  className : String
  deriving DecidableEq, Repr

structure CsStructure where
  namespaceName : Option String := none
  classes : List ClassInfo := []
  methods : List MemberInfo := []
  properties : List MemberInfo := []
  usings_end : Nat := 0
  deriving DecidableEq, Repr

structure ParseState where
  st : CsStructure
  brace_depth : Int := 0
  current_class : Option String := none
  current_class_depth : Int := 0
  deriving DecidableEq, Repr

/-- Body of the `for i, line in enumerate(lines)` loop of
`CSharpChunker._parse_structure`. -/
def parseLine (ps : ParseState) (i : Nat) (line : String) : ParseState :=
  let stripped := pyStrip line
  let usings_end :=
    if strStartsWith stripped "using " then
      if ps.st.usings_end = 0 then i else ps.st.usings_end
    else if !strStartsWith stripped "//" && stripped ≠ "" then
      if ps.st.usings_end = 0 then i else ps.st.usings_end
    else ps.st.usings_end
  let namespaceName :=
    match matchNamespacePattern stripped with
    | some n => some n
    | none => ps.st.namespaceName
  let (classes, current_class, current_class_depth) :=
    match matchClassPattern stripped with
    | some name =>
      (ps.st.classes ++ [({ name := name, start := i, depth := ps.brace_depth } : ClassInfo)],
       some name, ps.brace_depth)
    | none => (ps.st.classes, ps.current_class, ps.current_class_depth)
  let methods :=
    match current_class with
    | some cname =>
      if strContains stripped "(" && strContains stripped ")" then
        match matchMethodPattern stripped with
        | some mname =>
          if !strEndsWith stripped ";" then
            ps.st.methods ++ [({ name := mname, start := i, className := cname } : MemberInfo)]
          else ps.st.methods
        | none => ps.st.methods
      else ps.st.methods
    | none => ps.st.methods
  let properties :=
    match matchPropertyPattern stripped, current_class with
    | some pname, some cname =>
      ps.st.properties ++ [({ name := pname, start := i, className := cname } : MemberInfo)]
    | _, _ => ps.st.properties
  let brace_depth :=
    ps.brace_depth + (charCount stripped '{' : Int) - (charCount stripped '}' : Int)
  let (classes, current_class) :=
    match classes.getLast? with
    | some lastC =>
      if brace_depth < lastC.depth then
        (updateLast (fun c => { c with endLine := some (i : Int) }) classes,
         if current_class_depth ≥ brace_depth then none else current_class)
      else (classes, current_class)
    | none => (classes, current_class)
  { st := { namespaceName := namespaceName, classes := classes, methods := methods,
            properties := properties, usings_end := usings_end },
    brace_depth := brace_depth, current_class := current_class,
    current_class_depth := current_class_depth }

def parseLinesAux : ParseState → Nat → List String → ParseState
  | ps, _, [] => ps
  | ps, i, l :: ls => parseLinesAux (parseLine ps i l) (i + 1) ls

/-- Embedding of `CSharpChunker._parse_structure` before `_find_member_ends` (member
ends are attached by `membersWithEnds` below to the same stably sorted
member list that `_chunk_by_members` rebuilds). -/
def parse_structure (lines : List String) : CsStructure :=
  (parseLinesAux { st := {} } 0 lines).st

/-- Inner scan of `_find_member_ends`: from line `j`, accumulate brace
counts until the first line at which a body has opened and the running
count is back to zero. -/
def scanMemberEnd : List String → Int → Bool → Nat → Option Int
  | [], _, _, _ => none
  | l :: ls, count, inBody, j =>
    let stripped := pyStrip l
    let count := count + (charCount stripped '{' : Int) - (charCount stripped '}' : Int)
    let inBody := inBody || strContains stripped "\x7b"
    if inBody && count = 0 then some (j : Int) else scanMemberEnd ls count inBody (j + 1)

inductive MemberKind
  | method
  | property
  deriving DecidableEq, Repr

structure TaggedMember where
  kind : MemberKind
  info : MemberInfo
  deriving DecidableEq, Repr

def insertByStart (x : TaggedMember) : List TaggedMember → List TaggedMember
  | [] => [x]
  | y :: ys => if y.info.start ≤ x.info.start then y :: insertByStart x ys else x :: y :: ys

/-- Stable sort by `start` (Python `list.sort(key=...)` is stable, and
both `_find_member_ends` and `_chunk_by_members` sort the concatenation
`methods + properties`, so they see the same order). -/
def sortByStart (l : List TaggedMember) : List TaggedMember :=
  l.foldl (fun acc x => insertByStart x acc) []

structure MemberE where
  kind : MemberKind
  info : MemberInfo
  endI : Int
  deriving DecidableEq, Repr

/-- Embedding of `_find_member_ends`: brace scan, else clamp to one line before the
next member, else to the last line. -/
def fillMemberEnds (lines : List String) : List TaggedMember → List MemberE
  | [] => []
  | m :: rest =>
    let e : Int :=
      match scanMemberEnd (lines.drop m.info.start) 0 false m.info.start with
      | some j => j
      | none =>
        match rest with
        | nxt :: _ => (nxt.info.start : Int) - 1
        | [] => (lines.length : Int) - 1
    ⟨m.kind, m.info, e⟩ :: fillMemberEnds lines rest

def membersWithEnds (lines : List String) (st : CsStructure) : List MemberE :=
  fillMemberEnds lines
    (sortByStart (st.methods.map (⟨.method, ·⟩) ++ st.properties.map (⟨.property, ·⟩)))

def memberKindStr : MemberKind → String
  | .method => "method"
  | .property => "property"

/-- Embedding of `CSharpChunker._create_chunk`. -/
def create_chunk (rt : Runtime) (cfg : ChunkerCfg) (filepath content : String)
    (start_line end_line : Int) (context_header chunk_type : String) : ChunkData :=
  let content := truncate_content cfg content
  let is_arch := ARCH_INDICATORS.any (fun ind => strContains content ind)
  { id := generate_chunk_id rt filepath start_line end_line content
    content := content
    filepath := filepath
    context_header := context_header
    chunk_type := chunk_type
    start_line := start_line
    end_line := end_line
    is_architecture_node := is_arch
    embedding_text := create_embedding_text context_header filepath chunk_type content
    file_type := "cs" }

/-- The loop body of `CSharpChunker._chunk_by_members` for one member.
Note the Python falsiness quirk `member['end'] or len(lines) - 1`: an
end of `0` is replaced by the last line, while `-1` (from the clamp)
is kept. -/
def member_chunks (rt : Runtime) (cfg : ChunkerCfg) (filepath : String)
    (lines : List String) (st : CsStructure) (m : MemberE) : List ChunkData :=
  let start := m.info.start
  let e : Int := if m.endI = 0 then (lines.length : Int) - 1 else m.endI
  let context_parts :=
    (match st.namespaceName with
     | some ns => ["namespace " ++ ns]
     | none => []) ++
    (if m.info.className ≠ "" then ["class " ++ m.info.className] else []) ++
    [memberKindStr m.kind ++ " " ++ m.info.name]
  let context_header := joinSep " > " context_parts
  let member_lines := pySliceNat lines start (e + 1)
  let content := joinSep "\n" member_lines
  if member_lines.length > cfg.max_chunk_lines then
    split_large_content rt cfg filepath member_lines start context_header
      (memberKindStr m.kind) "cs" ARCH_INDICATORS
  else if content.length ≥ cfg.min_chunk_chars then
    [create_chunk rt cfg filepath content (start : Int) e context_header
      (memberKindStr m.kind)]
  else []

def chunk_by_members (rt : Runtime) (cfg : ChunkerCfg) (filepath : String)
    (lines : List String) (st : CsStructure) : List ChunkData :=
  ((membersWithEnds lines st).map (member_chunks rt cfg filepath lines st)).flatten

/-- Embedding of `CSharpChunker._chunk_by_lines` (fallback windowing). -/
def chunk_by_lines (rt : Runtime) (cfg : ChunkerCfg) (filepath : String)
    (lines : List String) (st : CsStructure) : List ChunkData :=
  let context_parts :=
    (match st.namespaceName with
     | some ns => ["namespace " ++ ns]
     | none => []) ++
    (match st.classes.head? with
     | some c => ["class " ++ c.name]
     | none => [])
  let context_header :=
    if context_parts.isEmpty then ((pySplitOnChar filepath '/').getLast?).getD filepath
    else joinSep " > " context_parts
  split_large_content rt cfg filepath lines 0 context_header "block" "cs" ARCH_INDICATORS

/-- First line among `lines[start : start+10]` containing `{`, giving
`header_end = i + 1`; defaults to `start`. -/
def header_end_index (lines : List String) (start : Nat) : Nat :=
  match (List.range' start (min (start + 10) lines.length - start)).find?
      (fun i => strContains (((lines.drop i).head?).getD "") "\x7b") with
  | some i => i + 1
  | none => start

/-- Embedding of `CSharpChunker._create_header_chunk`. -/
def create_header_chunk (rt : Runtime) (cfg : ChunkerCfg) (filepath : String)
    (lines : List String) (st : CsStructure) : Option ChunkData :=
  match st.classes.head? with
  | none => none
  | some first_class =>
    let header_end := header_end_index lines first_class.start
    let content := joinSep "\n" (lines.take header_end)
    if content.length < cfg.min_chunk_chars then none
    else
      let context_header := "FILE: " ++ ((pySplitOnChar filepath '/').getLast?).getD filepath
      let context_header :=
        match st.namespaceName with
        | some ns => context_header ++ " > namespace " ++ ns
        | none => context_header
      let context_header :=
        match st.classes.head? with
        | some c => context_header ++ " > class " ++ c.name ++ " (declaration)"
        | none => context_header
      some (create_chunk rt cfg filepath content 0 ((header_end : Int) - 1)
        context_header "file_header")

/-- Embedding of `CSharpChunker.chunk_file`. -/
def csharp_chunk_file (rt : Runtime) (cfg : ChunkerCfg) (filepath content : String) :
    List ChunkData :=
  let lines := pySplitlines content
  if lines.isEmpty then []
  else
    let st := parse_structure lines
    let chunks :=
      if !st.methods.isEmpty || !st.properties.isEmpty then
        chunk_by_members rt cfg filepath lines st
      else chunk_by_lines rt cfg filepath lines st
    match create_header_chunk rt cfg filepath lines st with
    | some h => h :: chunks
    | none => chunks

/-- A concrete runtime for evaluating examples whose conclusions do not
depend on the digest (the digest is left as the identity on its input
string, and the salted builtin hash is pinned to `0`). -/
def rtId : Runtime := ⟨fun s => s, fun _ => 0⟩

def defaultCfg : ChunkerCfg := {}

/-- The window contents `_split_large_content` examines, in loop order
(same iteration scheme and fuel as `split_large_aux`). -/
def window_contents_aux (cfg : ChunkerCfg) (lines : List String) : Nat → Nat → List String
  | _, 0 => []
  | i, fuel + 1 =>
    if i < lines.length then
      joinSep "\n" ((lines.take (min (i + cfg.max_chunk_lines) lines.length)).drop i) ::
        window_contents_aux cfg lines (i + cfg.max_chunk_lines - cfg.overlap_lines) fuel
    else []

def window_contents (cfg : ChunkerCfg) (lines : List String) : List String :=
  window_contents_aux cfg lines 0 (lines.length + 1)

/-- A small chunker configuration (window 3, overlap 1, minimum 1)
used to instantiate the windowing theorems. -/
def cfg3 : ChunkerCfg := { max_chunk_lines := 3, overlap_lines := 1, min_chunk_chars := 1 }

/-- A file of 27 structureless lines of 17 characters: every window meets the
minimum size, so the trailing partially-overlapped windows survive. -/
def c27 : String := joinSep "\n" (List.replicate 27 (String.mk (List.replicate 17 'a')))

/-! ## `split_text_into_chunks` (embeddings.py)

Pure splitting of an oversized text into parts at newline, then word,
boundaries.  Python arithmetic on `chunk_size = max_length - 50` may go
negative, so lengths are compared over `Int`.
-/

/-- State of the line loop: emitted chunks (reversed), current chunk
lines (reversed), current length. -/
structure SplitState where
  chunks : List String
  current_chunk : List String
  current_length : Int
  deriving DecidableEq, Repr

def flushCurrent (st : SplitState) : List String :=
  if st.current_chunk.isEmpty then st.chunks
  else st.chunks ++ [joinSep "\n" st.current_chunk]

/-- Inner word loop for a single line longer than `chunk_size`. -/
def splitWordsAux (chunkSize : Int) : List String → List String → Int → List String →
    List String
  | [], wordChunk, _, chunks =>
    if wordChunk.isEmpty then chunks else chunks ++ [joinSep " " wordChunk]
  | w :: ws, wordChunk, wordLength, chunks =>
    let wordLen : Int := (w.length : Int) + 1
    if wordLength + wordLen > chunkSize then
      let chunks := if wordChunk.isEmpty then chunks else chunks ++ [joinSep " " wordChunk]
      splitWordsAux chunkSize ws [w] wordLen chunks
    else
      splitWordsAux chunkSize ws (wordChunk ++ [w]) (wordLength + wordLen) chunks

/-- Line loop of `split_text_into_chunks`. -/
def splitLinesLoop (chunkSize : Int) : List String → SplitState → SplitState
  | [], st => st
  | line :: rest, st =>
    let lineLength : Int := (line.length : Int) + 1
    if lineLength > chunkSize then
      let chunks := flushCurrent st
      let chunks := splitWordsAux chunkSize (pyWords line) [] 0 chunks
      splitLinesLoop chunkSize rest ⟨chunks, [], 0⟩
    else if st.current_length + lineLength > chunkSize then
      splitLinesLoop chunkSize rest ⟨flushCurrent st, [line], lineLength⟩
    else
      splitLinesLoop chunkSize rest
        ⟨st.chunks, st.current_chunk ++ [line], st.current_length + lineLength⟩

/-- Embedding of `split_text_into_chunks(text, max_length)`. -/
def split_text_into_chunks (text : String) (maxLength : Nat := MAX_EMBEDDING_TEXT_LENGTH) :
    List String :=
  if text.length ≤ maxLength then [text]
  else
    let chunkSize : Int := (maxLength : Int) - 50
    let lines := pySplitOnChar text '\n'
    flushCurrent (splitLinesLoop chunkSize lines ⟨[], [], 0⟩)

/-! ## `EmbeddingEngine` retries and batching (embeddings.py)

The external Provider is a function from attempt number to a response;
network and HTTP outcomes become a `Resp` value.  Vectors are opaque
(component arithmetic never happens), carried as `List Int`.
`_get_embedding_direct` also returns the number of POST attempts it
made.  Thread-pool completion order only affects log order; results
are written per index, so `_embed_parallel` is order-independent and
modelled as a map.
-/

inductive Resp where
  | ok (v : List Int)
  | httpErr (status : Nat)
  | timeoutErr
  | raised (msg : String)
  deriving DecidableEq, Repr

inductive EmbedErr where
  | httpStatus (status : Nat)
  | timeoutErr
  | raised (msg : String)
  | exhausted
  deriving DecidableEq, Repr

/-- The `for attempt in range(max_retries)` loop of
`_get_embedding_direct`; `fuel` is the number of attempts left, so the
Python guard `attempt < max_retries - 1` is `fuel ≠ 1`.  A non-500
HTTP error re-raises at once; 500, timeout/connect and other
exceptions retry until the final attempt; after the loop the last
error (or a fresh `RuntimeError` when the range was empty) is
raised. -/
def directAttempts (responses : Nat → Resp) : Nat → Nat → Option EmbedErr →
    Except EmbedErr (List Int) × Nat
  | attempt, 0, last =>
    (match last with
     | some e => .error e
     | none => .error .exhausted, attempt)
  | attempt, fuel + 1, _ =>
    match responses attempt with
    | .ok v => (.ok v, attempt + 1)
    | .httpErr code =>
      if code = 500 then
        match fuel with
        | 0 => (.error (.httpStatus 500), attempt + 1)
        | fuel + 1 =>
          directAttempts responses (attempt + 1) (fuel + 1) (some (.httpStatus 500))
      else (.error (.httpStatus code), attempt + 1)
    | .timeoutErr =>
      match fuel with
      | 0 => (.error .timeoutErr, attempt + 1)
      | fuel + 1 => directAttempts responses (attempt + 1) (fuel + 1) (some .timeoutErr)
    | .raised m =>
      match fuel with
      | 0 => (.error (.raised m), attempt + 1)
      | fuel + 1 => directAttempts responses (attempt + 1) (fuel + 1) (some (.raised m))

/-- Embedding of `EmbeddingEngine._get_embedding_direct(text, max_retries)`:
oversized text falls back to the first pre-split part (on a text whose
split yields no parts at all, e.g. one enormous whitespace run, the
Python `chunks[0]` raises; such texts do not occur below).  Returns
the outcome and the number of Provider attempts. -/
def get_embedding_direct (respond : String → Nat → Resp) (text : String)
    (maxRetries : Nat := 5) : Except EmbedErr (List Int) × Nat :=
  let safeText :=
    if text.length > MAX_EMBEDDING_TEXT_LENGTH then
      ((split_text_into_chunks text).head?).getD text
    else text
  directAttempts (respond safeText) 0 maxRetries none

def exceptIsOk {α β : Type} : Except α β → Bool
  | .ok _ => true
  | .error _ => false

/-- Embedding of `EmbeddingEngine._embed_parallel`: one `_get_embedding_direct` per
item; an item whose retries are exhausted is replaced by
`[0.0] * 768`.  Returns (results, total Provider attempts, failed-item
count). -/
def embed_parallel (respond : String → Nat → Resp) (texts : List String) :
    List (List Int) × Nat × Nat :=
  let outs := texts.map (fun t => get_embedding_direct respond t 5)
  (outs.map (fun o =>
      match o.1 with
      | .ok v => v
      | .error _ => List.replicate 768 0),
   outs.foldl (fun a o => a + o.2) 0,
   outs.countP (fun o => !exceptIsOk o.1))

/-- Fill the `None` slots of the hit list with the freshly embedded
vectors, in order (`for i, idx in enumerate(uncached_indices)`). -/
def fillMisses : List (Option (List Int)) → List (List Int) → List (Option (List Int))
  | [], _ => []
  | none :: rest, v :: vs => some v :: fillMisses rest vs
  | none :: rest, [] => none :: fillMisses rest []
  | some x :: rest, vs => some x :: fillMisses rest vs

structure BatchResult where
  results : List (Option (List Int))
  cacheAfter : List (String × List Int)
  providerCalls : Nat
  failedItems : Nat
  deriving DecidableEq, Repr

/-- Embedding of `EmbeddingEngine.embed_batch(texts, prefix)` with the persistent
cache enabled.  `hashFn` stands for
`EmbeddingCache.hash_content` (sha256 hex, truncated); the cache is
the content-hash → vector table.  Cache hits fill their slots; the
misses are embedded by `embed_parallel` and written back with
`set_batch` before being merged in the original order. -/
def embed_batch (hashFn : String → String) (respond : String → Nat → Resp)
    (cache : List (String × List Int)) (texts : List String) (pfx : String) :
    BatchResult :=
  if texts.isEmpty then ⟨[], cache, 0, 0⟩
  else
    let prefixed := texts.map (fun t => pfx ++ t)
    let hashes := prefixed.map hashFn
    let hits : List (Option (List Int)) := hashes.map (alistGet cache)
    let uncached_texts :=
      ((prefixed.zip hashes).filter (fun th => (alistGet cache th.2).isNone)).map (·.1)
    let (new_embeddings, calls, fails) := embed_parallel respond uncached_texts
    let cache_items := (uncached_texts.zip new_embeddings).map (fun tv => (hashFn tv.1, tv.2))
    let cacheAfter := cache_items.foldl (fun c hv => alistSet c hv.1 hv.2) cache
    ⟨fillMisses hits new_embeddings, cacheAfter, calls, fails⟩

/-! ## `IndexingPipeline` (watcher.py) and the chunker factory

The factory registry maps lowercased extensions to chunkers
(`ChunkerFactory.register` / `get_chunker`); `os.path.splitext` is
modelled with its leading-dot rule.  `process_file` is embedded over an
environment of fallible collaborators — file read (+`os.stat`),
chunking, `embed_batch`, and the VectorStore upsert each return
`Except`, mirroring the single `try` block that converts any raised
exception into `(0, 0, message)`.  The `FileHashCache` table is an
association list threaded in and out.
-/

structure PStat where
  mtime : Int
  size : Int
  deriving DecidableEq, Repr

structure FileRec where
  content_hash : String
  mtime : Int
  size : Int
  chunk_count : Nat
  deriving DecidableEq, Repr

/-- Embedding of `FileHashCache.update_file` (SQL `INSERT OR REPLACE` keyed by
filepath). -/
def update_file (cache : List (String × FileRec)) (filepath : String) (r : FileRec) :
    List (String × FileRec) :=
  alistSet cache filepath r

/-- Embedding of `db.CodeChunk` (LanceDB record). -/
structure CodeChunk where
  id : String
  content : String
  filepath : String
  context_header : String
  summary : String
  is_architecture_node : Bool
  vector : List Int
  file_type : String
  deriving DecidableEq, Repr

/-- A chunker as registered with the factory: language name, supported
extensions, and its (possibly raising) `chunk_file`. -/
structure RegisteredChunker where
  lang : String
  extensions : List String
  chunkFile : String → String → Except String (List ChunkData)

def strLower (s : String) : String :=
  String.mk (s.data.map Char.toLower)

/-- Embedding of `os.path.splitext(p)[1]`: the extension starts at the last dot of
the basename, unless every character before it in the basename is a
dot. -/
def py_splitext_ext (p : String) : String :=
  let base := ((pySplitOnChar p '/').getLast?).getD p
  match (List.range base.data.length).filter (fun i => base.data.get? i = some '.') with
  | [] => ""
  | is =>
    let i := is.getLast?.getD 0
    if ((base.data.take i).any (fun c => c ≠ '.')) then String.mk (base.data.drop i)
    else ""

/-- Embedding of `ChunkerFactory._extension_map` built by `register` (later
registrations overwrite). -/
def factory_ext_map (cs : List RegisteredChunker) : List (String × String) :=
  cs.foldl (fun m c => c.extensions.foldl (fun m e => alistSet m (strLower e) c.lang) m) []

/-- Embedding of `ChunkerFactory.get_chunker`: strings containing a dot go through
`splitext`, otherwise the whole string is treated as an extension. -/
def factory_get_chunker (cs : List RegisteredChunker) (filepath : String) :
    Option (String → String → Except String (List ChunkData)) :=
  let ext :=
    if filepath.data.any (fun c => c = '.') then strLower (py_splitext_ext filepath)
    else strLower filepath
  match alistGet (factory_ext_map cs) ext with
  | some lang =>
    ((cs.reverse.find? (fun c => c.lang = lang)).map (·.chunkFile))
  | none => none

structure PipelineEnv where
  chunkers : List RegisteredChunker
  readFile : String → Except String (String × PStat)
  sha256Hex32 : String → String
  embedRun : List String → String → Except String (List (List Int))
  upsertRun : List CodeChunk → String → Except String Unit

/-- The oversized-chunk re-split of `IndexingPipeline.process_file`:
a chunk whose `embedding_text` exceeds `MAX_EMBEDDING_TEXT_LENGTH` is
replaced by part-chunks over `split_text_into_chunks(content)`, with
part-indexed ids and headers, architecture flag only on part 1. -/
def resplit_oversized (c : ChunkData) : List ChunkData :=
  if c.embedding_text.length > MAX_EMBEDDING_TEXT_LENGTH then
    let content_parts := split_text_into_chunks c.content
    content_parts.enum.map (fun ip =>
      let i := ip.1 + 1
      let part_header :=
        c.context_header ++ " [part " ++ toString i ++ "/" ++
          toString content_parts.length ++ "]"
      { id := c.id ++ "_part" ++ toString i
        content := ip.2
        filepath := c.filepath
        context_header := part_header
        chunk_type := c.chunk_type
        start_line := c.start_line
        end_line := c.end_line
        is_architecture_node := if i = 1 then c.is_architecture_node else false
        embedding_text := c.filepath ++ "\n" ++ part_header ++ "\n" ++ ip.2
        summary := if i = 1 then c.summary else c.summary ++ " (continued)"
        file_type := c.file_type })
  else [c]

/-- Embedding of `IndexingPipeline.process_file(filepath)`: returns
`(success, chunk_count, error_message?)` and the `FileHashCache` state
after the call.  Every failing step short-circuits to
`(0, 0, message)` without touching the cache; the cache is written
only after `upsert_chunks` returned, as in the `try` block. -/
def process_file (env : PipelineEnv) (cache : List (String × FileRec)) (filepath : String) :
    (Nat × Nat × Option String) × List (String × FileRec) :=
  match factory_get_chunker env.chunkers filepath with
  | none => ((0, 0, some ("Unsupported file type: " ++ filepath)), cache)
  | some chunkFun =>
    match env.readFile filepath with
    | .error e => ((0, 0, some e), cache)
    | .ok (content, stat) =>
      let content_hash := env.sha256Hex32 content
      match chunkFun filepath content with
      | .error e => ((0, 0, some e), cache)
      | .ok raw_chunks =>
        if raw_chunks.isEmpty then ((1, 0, none), cache)
        else
          let processed_chunks := (raw_chunks.map resplit_oversized).flatten
          match env.embedRun (processed_chunks.map (·.embedding_text)) "search_document: " with
          | .error e => ((0, 0, some e), cache)
          | .ok embeddings =>
            let chunks := (processed_chunks.zip embeddings).map (fun ce =>
              CodeChunk.mk ce.1.id ce.1.content ce.1.filepath ce.1.context_header
                ce.1.summary ce.1.is_architecture_node ce.2 ce.1.file_type)
            match env.upsertRun chunks filepath with
            | .error e => ((0, 0, some e), cache)
            | .ok _ =>
              ((1, chunks.length, none),
               update_file cache filepath
                 ⟨content_hash, stat.mtime, stat.size, chunks.length⟩)

/-- Embedding of `IndexingPipeline.process_files_batch`: fan-out of `process_file`
with race-free aggregation of `(files_processed, total_chunks,
files_failed)`; completion order only permutes commutative sums, so it
is modelled as a sequential fold. -/
def process_files_batch (env : PipelineEnv) (cache : List (String × FileRec))
    (filepaths : List String) : (Nat × Nat × Nat) × List (String × FileRec) :=
  filepaths.foldl (fun acc fp =>
    let ((success, chunks, _err), cache) := process_file env acc.2 fp
    ((acc.1.1 + success, acc.1.2.1 + chunks, acc.1.2.2 + if success = 0 then 1 else 0),
     cache)) ((0, 0, 0), cache)

/-! ## `LibrarianWatcher.process_hot_path` (watcher.py)

`success, chunks = self.pipeline.process_file(filepath)` unpacks the
returned 3-tuple into two targets.  Python tuple unpacking is modelled
on a list of tagged values. -/

inductive PyVal where
  | int (n : Nat)
  | strv (s : String)
  | pynone
  deriving DecidableEq, Repr

/-- The tuple value `process_file` returns, as Python sees it. -/
def process_file_tuple (env : PipelineEnv) (cache : List (String × FileRec))
    (filepath : String) : List PyVal :=
  let r := (process_file env cache filepath).1
  [.int r.1, .int r.2.1,
   match r.2.2 with
   | some m => .strv m
   | none => .pynone]

/-- Python unpacking `a, b = t`. -/
def unpack2 (t : List PyVal) : Except String (PyVal × PyVal) :=
  match t with
  | [a, b] => .ok (a, b)
  | _ => .error "ValueError: too many values to unpack (expected 2)"

/-- Embedding of `LibrarianWatcher.process_hot_path`: unpack the pipeline result
into `(success, chunks)` and return the chunk count; an unpacking
error propagates out of the method. -/
def process_hot_path (env : PipelineEnv) (cache : List (String × FileRec))
    (filepath : String) : Except String PyVal :=
  match unpack2 (process_file_tuple env cache filepath) with
  | .error e => .error e
  | .ok sc => .ok sc.2

/-! ## Concrete instances used by witnesses and counterexamples -/

/-- The registered `CSharpChunker` (the only factory registration),
with its pure `chunk_file` wrapped as a non-raising step. -/
def csRegistered : RegisteredChunker :=
  ⟨"C#", [".cs", ".csx"], fun fp c => .ok (csharp_chunk_file rtId defaultCfg fp c)⟩

/-- A 60-character one-line C# file: structureless, above the minimum
chunk size, below every other limit. -/
def line60 : String := String.mk (List.replicate 60 'a')

/-- Environment whose embedding step raises. -/
def envEmbedFail : PipelineEnv :=
  { chunkers := [csRegistered]
    readFile := fun _ => .ok (line60, ⟨7, 60⟩)
    sha256Hex32 := fun _ => "h60"
    embedRun := fun _ _ => .error "boom"
    upsertRun := fun _ _ => .ok () }

/-- Environment that never reaches its collaborators (used on
unsupported extensions). -/
def envUnsup : PipelineEnv :=
  { chunkers := [csRegistered]
    readFile := fun _ => .error "unreachable"
    sha256Hex32 := fun _ => ""
    embedRun := fun _ _ => .error "unreachable"
    upsertRun := fun _ _ => .ok () }

/-! ## C4: the hot path always raises -/

/-- C4. `process_hot_path` unpacks the 3-tuple returned by
`process_file` into two targets, so every call raises `ValueError` and
the hot path can never index a file. -/
theorem process_hot_path_always_raises (env : PipelineEnv)
    (cache : List (String × FileRec)) (filepath : String) :
    process_hot_path env cache filepath =
      .error "ValueError: too many values to unpack (expected 2)" := rfl

/-! ## C5: cache update only after a successful upsert -/

/-- C5. `process_file` converts any failing step into
`(0, 0, message)` with the `FileHashCache` untouched, and writes the
cache record only on the success path, after `upsert_chunks` has
returned. -/
theorem process_file_cache_only_after_upsert (env : PipelineEnv)
    (cache : List (String × FileRec)) (fp : String)
    (s k : Nat) (e : Option String) (cacheA : List (String × FileRec))
    (h : process_file env cache fp = ((s, k, e), cacheA)) :
    (s = 0 → k = 0 ∧ e.isSome ∧ cacheA = cache) ∧
    (cacheA ≠ cache → s = 1 ∧ e = none ∧
      ∃ chunks r, env.upsertRun chunks fp = .ok () ∧
        cacheA = update_file cache fp r) := by
  unfold process_file at h
  dsimp only at h
  repeat' split at h
  all_goals simp only [Prod.mk.injEq] at h
  all_goals obtain ⟨⟨hs, hk, he⟩, hca⟩ := h
  all_goals subst hs
  all_goals subst hk
  all_goals subst he
  all_goals subst hca
  all_goals first
    | exact ⟨fun _ => ⟨rfl, rfl, rfl⟩, fun hne => absurd rfl hne⟩
    | exact ⟨fun h0 => absurd h0 (by omega), fun hne => absurd rfl hne⟩
    | exact ⟨fun h0 => absurd h0 (by omega),
        fun _ => ⟨rfl, rfl, _, _, by assumption, rfl⟩⟩

/-- Witness for C5: with an environment whose embedding step raises,
`process_file envEmbedFail [] "a.cs"` evaluates to
`((0, 0, some "boom"), [])`, and the theorem instantiates to the
error-path facts. -/
theorem process_file_cache_only_after_upsert_witness :
    (0 : Nat) = 0 ∧ (Option.some "boom").isSome ∧
      ([] : List (String × FileRec)) = [] :=
  (process_file_cache_only_after_upsert envEmbedFail [] "a.cs" 0 0 (some "boom") []
    (by decide)).1 rfl

/-! ## C9: unsupported file types are counted as failures -/

/-- Counterexample for C9: for the unregistered extension `.xyz`,
`process_file` reports a failure (`success = 0` with an error message)
and `process_files_batch` counts the file in `files_failed`, which is
`1`, not `0`. -/
theorem unsupported_file_counted_failed_cex :
    (process_file envUnsup [] "a.xyz").1 =
      (0, 0, some "Unsupported file type: a.xyz") ∧
    (process_files_batch envUnsup [] ["a.xyz"]).1 = (0, 0, 1) ∧
    ¬ (process_files_batch envUnsup [] ["a.xyz"]).1.2.2 = 0 := by
  decide

/-- C9 (amended). A file whose extension has no registered chunker
makes `process_file` return `(0, 0, "Unsupported file type: …")` —
reported as a failure, though the cache is untouched — and
`process_files_batch` counts it in `files_failed`. -/
theorem unsupported_file_reported_failed (env : PipelineEnv)
    (cache : List (String × FileRec)) (fp : String)
    (h : factory_get_chunker env.chunkers fp = none) :
    (process_file env cache fp).1 = (0, 0, some ("Unsupported file type: " ++ fp)) ∧
    (process_file env cache fp).2 = cache ∧
    (process_files_batch env cache [fp]).1.2.2 = 1 := by
  have h1 : process_file env cache fp =
      ((0, 0, some ("Unsupported file type: " ++ fp)), cache) := by
    unfold process_file
    rw [h]
  refine ⟨by rw [h1], by rw [h1], ?_⟩
  simp [process_files_batch, h1]

/-- Witness for C9's amended theorem at the concrete file `a.xyz`. -/
theorem unsupported_file_reported_failed_witness :
    (process_file envUnsup [] "a.xyz").1 =
      (0, 0, some ("Unsupported file type: " ++ "a.xyz")) ∧
    (process_file envUnsup [] "a.xyz").2 = [] ∧
    (process_files_batch envUnsup [] ["a.xyz"]).1.2.2 = 1 :=
  unsupported_file_reported_failed envUnsup [] "a.xyz" (by rfl)

/-! ## C2: batch embedding of `["a", "a", "b"]` on an empty cache -/

/-- Counterexample for C2: the cache round-trip happens once, before
any miss is embedded, so the duplicate `"a"` is *not* deduplicated
within the batch: three Provider calls are issued, not two (the three
returned vectors, with first equal to second, do hold). -/
theorem embed_batch_duplicates_not_deduped_cex :
    (embed_batch (fun s => s)
        (fun t _ => .ok [((t.data.headD 'a').toNat : Int)]) [] ["a", "a", "b"]
        "").providerCalls = 3 ∧
    ¬ ((embed_batch (fun s => s)
        (fun t _ => .ok [((t.data.headD 'a').toNat : Int)]) [] ["a", "a", "b"]
        "").providerCalls = 2) ∧
    (embed_batch (fun s => s)
        (fun t _ => .ok [((t.data.headD 'a').toNat : Int)]) [] ["a", "a", "b"]
        "").results = [some [97], some [97], some [98]] := by
  decide

/-- C2 (amended). Against an empty cache, `embed_batch` on
`["a", "a", "b"]` issues exactly **3** Provider calls — one per item,
since only the cache (checked before dispatch) deduplicates — and
returns 3 vectors whose first two are equal whenever the Provider is
deterministic. -/
theorem embed_batch_empty_cache_three_calls (hashFn : String → String)
    (f : String → List Int) :
    (embed_batch hashFn (fun t _ => .ok (f t)) [] ["a", "a", "b"] "").providerCalls
      = 3 ∧
    (embed_batch hashFn (fun t _ => .ok (f t)) [] ["a", "a", "b"] "").results =
      [some (f "a"), some (f "a"), some (f "b")] := by
  exact ⟨rfl, rfl⟩

/-! ## C3: chunk ids are not stable across processes -/

/-- C3 (code evaluation).  Every chunk id is the md5 digest of a
string that interpolates the builtin `hash(content)` — salted per
process — so two runs whose builtin hash differs on the same content
digest different strings: evaluated here on the one-chunk file
`line60`, whose chunk spans lines 0–0. -/
theorem chunk_id_input_depends_on_process_hash :
    (∀ rt : Runtime, (csharp_chunk_file rt defaultCfg "a.cs" line60).map (·.id) =
      [rt.md5Hex (generate_chunk_id_input (rt.pyHash line60) "a.cs" 0 0)]) ∧
    generate_chunk_id_input 0 "a.cs" 0 0 ≠ generate_chunk_id_input 1 "a.cs" 0 0 := by
  refine ⟨fun rt => ?_, by decide⟩
  rfl

/-! ## C6: retry bound and failure isolation -/

/-- The retry loop under a Provider that answers 500 on every attempt:
all `fuel` remaining attempts are spent, then the error is raised. -/
theorem directAttempts_all_500 (g : Nat → Resp) (h : ∀ n, g n = .httpErr 500) :
    ∀ fuel attempt last, 1 ≤ fuel →
      directAttempts g attempt fuel last = (.error (.httpStatus 500), attempt + fuel)
  | 0, _, _, hf => absurd hf (by omega)
  | 1, attempt, last, _ => by
    simp [directAttempts, h attempt]
  | fuel + 2, attempt, last, _ => by
    have ih := directAttempts_all_500 g h (fuel + 1) (attempt + 1)
      (some (.httpStatus 500)) (by omega)
    simp only [directAttempts, h attempt, eq_self_iff_true, ite_true]
    rw [ih]
    simp only [Prod.mk.injEq, true_and]
    omega

/-- Unfolding lemma: `_embed_parallel` writes results per index: item `i` carries its own
embedding or the zero-vector fallback. -/
theorem embed_parallel_results (respond : String → Nat → Resp) (texts : List String) :
    (embed_parallel respond texts).1 =
      texts.map (fun t =>
        match (get_embedding_direct respond t 5).1 with
        | .ok v => v
        | .error _ => List.replicate 768 0) := by
  unfold embed_parallel
  dsimp only
  rw [List.map_map]
  rfl

/-- C6. A batch item whose Provider answers transient overload
(HTTP 500) on every attempt: `_get_embedding_direct` makes exactly
`max_retries` attempts and then raises, and in `_embed_parallel` only
that item is affected — it is substituted by a zero vector of the
Provider dimensionality 768, while every sibling item completes with
its embedding. -/
theorem provider_overload_retry_bound_and_isolation
    (respond : String → Nat → Resp) (f : String → List Int)
    (texts : List String) (j : Nat) (hj : j < texts.length)
    (hlen : ∀ t ∈ texts, t.length ≤ MAX_EMBEDDING_TEXT_LENGTH)
    (hresp : ∀ t n, respond t n =
      if t = texts[j] then .httpErr 500 else .ok (f t)) :
    (∀ mr, 1 ≤ mr →
      get_embedding_direct respond texts[j] mr =
        (.error (.httpStatus 500), mr)) ∧
    (embed_parallel respond texts).1.length = texts.length ∧
    (embed_parallel respond texts).1[j]? = some (List.replicate 768 0) ∧
    (∀ i, (hi : i < texts.length) → texts[i] ≠ texts[j] →
      (embed_parallel respond texts).1[i]? = some (f (texts[i]))) := by
  have hsafe : ∀ t ∈ texts, get_embedding_direct respond t 5 =
      directAttempts (respond t) 0 5 none := by
    intro t ht
    unfold get_embedding_direct
    have hn : ¬ t.length > MAX_EMBEDDING_TEXT_LENGTH := by
      have := hlen t ht
      omega
    simp [hn]
  have hdirj : ∀ mr, 1 ≤ mr →
      get_embedding_direct respond texts[j] mr =
        (.error (.httpStatus 500), mr) := by
    intro mr hmr
    unfold get_embedding_direct
    have hle := hlen _ (texts.getElem_mem hj)
    have hnot : ¬ (texts[j]).length > MAX_EMBEDDING_TEXT_LENGTH := by omega
    simp only [hnot, if_false]
    have h500 : ∀ n, respond (texts[j]) n = .httpErr 500 := by
      intro n
      rw [hresp]
      simp
    rw [directAttempts_all_500 _ h500 mr 0 none hmr]
    simp
  have hres := embed_parallel_results respond texts
  refine ⟨hdirj, ?_, ?_, ?_⟩
  · rw [hres, List.length_map]
  · rw [hres, List.getElem?_map, List.getElem?_eq_getElem hj, Option.map_some',
      hdirj 5 (by omega)]
  · intro i hi hne
    have hok : respond (texts[i]) 0 = .ok (f (texts[i])) := by
      rw [hresp, if_neg hne]
    have hd : directAttempts (respond (texts[i])) 0 5 none =
        (.ok (f (texts[i])), 1) := by
      show directAttempts (respond (texts[i])) 0 (4 + 1) none = _
      simp [directAttempts, hok]
    rw [hres, List.getElem?_map, List.getElem?_eq_getElem hi, Option.map_some',
      hsafe _ (texts.getElem_mem hi), hd]

/-- Witness for C6: three texts, the middle one always overloaded. -/
theorem provider_overload_retry_bound_and_isolation_witness :
    (embed_parallel
      (fun t _ => if t = "y" then Resp.httpErr 500 else Resp.ok [7])
      ["x", "y", "z"]).1[1]? = some (List.replicate 768 0) :=
  (provider_overload_retry_bound_and_isolation
    (fun t _ => if t = "y" then Resp.httpErr 500 else Resp.ok [7])
    (fun _ => [7]) ["x", "y", "z"] 1 (by decide)
    (by intro t ht; fin_cases ht <;> decide)
    (fun t n => rfl)).2.2.1

/-! ## C1: the embedding-text length bound

`_create_embedding_text` prepends a context preamble *after*
`_truncate_content` has bounded the content, so `embedding_text` can
exceed `max_text_length` by the preamble (and the truncation marker).
The constant `25` is the length of the fixed preamble text
`"Context: " ++ "\nFile: " ++ "\nType: " ++ "\n\n"`.
-/

theorem strTake_length (s : String) (n : Nat) : (strTake s n).length ≤ n := by
  show (s.data.take n).length ≤ n
  exact List.length_take_le n s.data

theorem truncate_content_length (cfg : ChunkerCfg) (s : String) :
    (truncate_content cfg s).length ≤ cfg.max_text_length + 16 := by
  unfold truncate_content
  split
  · rw [String.length_append]
    have h1 := strTake_length s cfg.max_text_length
    have h2 : ("\n... [truncated]" : String).length = 16 := rfl
    omega
  · omega

theorem create_embedding_text_length (h fp t c : String) :
    (create_embedding_text h fp t c).length =
      25 + h.length + fp.length + t.length + c.length := by
  simp only [create_embedding_text, String.length_append]
  have e1 : ("Context: " : String).length = 9 := rfl
  have e2 : ("\nFile: " : String).length = 7 := rfl
  have e3 : ("\nType: " : String).length = 7 := rfl
  have e4 : ("\n\n" : String).length = 2 := rfl
  omega

theorem create_chunk_emb_bound (rt : Runtime) (cfg : ChunkerCfg)
    (fp content : String) (s e : Int) (h t : String) :
    (create_chunk rt cfg fp content s e h t).embedding_text.length ≤
      25 + (create_chunk rt cfg fp content s e h t).context_header.length +
        fp.length + (create_chunk rt cfg fp content s e h t).chunk_type.length +
        (cfg.max_text_length + 16) := by
  unfold create_chunk
  dsimp only
  rw [create_embedding_text_length]
  have := truncate_content_length cfg content
  omega

theorem split_large_aux_emb_bound (rt : Runtime) (cfg : ChunkerCfg) (fp : String)
    (lines : List String) (start : Nat) (ctx ctype ftype : String)
    (arch : List String) :
    ∀ fuel i part, ∀ c ∈ split_large_aux rt cfg fp lines start ctx ctype ftype
        arch i part fuel,
      c.embedding_text.length ≤
        25 + c.context_header.length + fp.length + c.chunk_type.length +
          (cfg.max_text_length + 16) := by
  intro fuel
  induction fuel with
  | zero => intro i part c hc; simp [split_large_aux] at hc
  | succ fuel ih =>
    intro i part c hc
    rw [split_large_aux] at hc
    by_cases hin : i < lines.length
    · rw [if_pos hin] at hc
      dsimp only at hc
      set content := joinSep "\n"
        ((lines.take (min (i + cfg.max_chunk_lines) lines.length)).drop i) with hcontent
      by_cases hbig : content.length ≥ cfg.min_chunk_chars
      · rw [if_pos hbig] at hc
        rcases List.mem_cons.mp hc with rfl | hc
        · dsimp only
          rw [create_embedding_text_length]
          have := truncate_content_length cfg content
          omega
        · exact ih _ _ c hc
      · rw [if_neg hbig] at hc
        exact ih _ _ c hc
    · rw [if_neg hin] at hc
      exact absurd hc (List.not_mem_nil c)

theorem split_large_content_emb_bound (rt : Runtime) (cfg : ChunkerCfg) (fp : String)
    (lines : List String) (start : Nat) (ctx ctype ftype : String)
    (arch : List String) :
    ∀ c ∈ split_large_content rt cfg fp lines start ctx ctype ftype arch,
      c.embedding_text.length ≤
        25 + c.context_header.length + fp.length + c.chunk_type.length +
          (cfg.max_text_length + 16) := by
  intro c hc
  exact split_large_aux_emb_bound rt cfg fp lines start ctx ctype ftype arch _ _ _ c hc

theorem member_chunks_emb_bound (rt : Runtime) (cfg : ChunkerCfg) (fp : String)
    (lines : List String) (st : CsStructure) (m : MemberE) :
    ∀ x ∈ member_chunks rt cfg fp lines st m,
      x.embedding_text.length ≤
        25 + x.context_header.length + fp.length + x.chunk_type.length +
          (cfg.max_text_length + 16) := by
  intro x hx
  unfold member_chunks at hx
  dsimp only at hx
  repeat' split at hx
  all_goals first
    | exact split_large_content_emb_bound rt cfg fp _ _ _ _ _ _ x hx
    | (rcases List.mem_singleton.mp hx with rfl
       exact create_chunk_emb_bound rt cfg fp _ _ _ _ _)
    | exact absurd hx (List.not_mem_nil x)

/-- C1 (amended). Every chunk `CSharpChunker.chunk_file` emits has
`embedding_text` of length at most
`max_text_length + 16` (content after truncation, marker included)
*plus* the context preamble `25 + |context_header| + |filepath| +
|chunk_type|`; the stated invariant — `embedding_text` itself bounded
by `MAX_EMBEDDING_TEXT_LENGTH` — fails by exactly that preamble. -/
theorem chunk_embedding_text_bounded (rt : Runtime) (cfg : ChunkerCfg)
    (fp content : String) :
    (csharp_chunk_file rt cfg fp content).Forall (fun c =>
      c.embedding_text.length ≤
        25 + c.context_header.length + fp.length + c.chunk_type.length +
          (cfg.max_text_length + 16)) := by
  rw [List.forall_iff_forall_mem]
  intro c hc
  unfold csharp_chunk_file at hc
  by_cases hempty : (pySplitlines content).isEmpty
  · rw [if_pos hempty] at hc
    exact absurd hc (List.not_mem_nil c)
  · rw [if_neg hempty] at hc
    dsimp only at hc
    set lines := pySplitlines content with hlines
    set st := parse_structure lines with hst
    have hbody : ∀ x, x ∈ (if !st.methods.isEmpty || !st.properties.isEmpty then
        chunk_by_members rt cfg fp lines st
      else chunk_by_lines rt cfg fp lines st) →
        x.embedding_text.length ≤
          25 + x.context_header.length + fp.length + x.chunk_type.length +
            (cfg.max_text_length + 16) := by
      intro x hx
      split at hx
      · unfold chunk_by_members at hx
        rcases List.mem_flatten.mp hx with ⟨l, hl, hxl⟩
        rcases List.mem_map.mp hl with ⟨m, _hm, rfl⟩
        exact member_chunks_emb_bound rt cfg fp lines st m x hxl
      · unfold chunk_by_lines at hx
        exact split_large_content_emb_bound rt cfg fp _ _ _ _ _ _ x hx
    rcases hh : create_header_chunk rt cfg fp lines st with _ | hchunk <;>
        rw [hh] at hc
    · exact hbody c hc
    · rcases List.mem_cons.mp hc with rfl | hc
      · unfold create_header_chunk at hh
        rcases hcl : st.classes.head? with _ | fc <;> rw [hcl] at hh
        · exact absurd hh (by simp)
        · dsimp only at hh
          by_cases hsmall : (joinSep "\n"
              (lines.take (header_end_index lines fc.start))).length <
                cfg.min_chunk_chars
          · rw [if_pos hsmall] at hh
            exact absurd hh (by simp)
          · rw [if_neg hsmall] at hh
            injection hh with hh
            rw [← hh]
            exact create_chunk_emb_bound rt cfg fp _ _ _ _ _
      · exact hbody c hc

/-! ### C1 counterexample: a 1500-character structureless line

The content is `List.replicate 1500 'a'`, handled symbolically so that
no kernel computation ever walks the 1500-character list: lengths come
from `List.length_replicate`, scans from the `*_replicate` lemmas. -/

theorem data_mk (l : List Char) : (String.mk l).data = l := rfl

theorem splitBreaksAux_repl_a : ∀ n,
    splitBreaksAux (List.replicate n 'a') = [List.replicate n 'a']
  | 0 => rfl
  | n + 1 => by
    rw [List.replicate_succ,
      show splitBreaksAux ('a' :: List.replicate n 'a') =
        (match splitBreaksAux (List.replicate n 'a') with
         | [] => [['a']]
         | l :: ls => ('a' :: l) :: ls) from rfl,
      splitBreaksAux_repl_a n]

theorem getLastD_replicate (n : Nat) (a : Char) :
    (List.replicate n a).getLastD a = a := by
  induction n with
  | zero => rfl
  | succ n ih =>
    rw [List.replicate_succ]
    cases hn : List.replicate n a with
    | nil => rfl
    | cons b bs =>
      rw [List.getLastD_cons, ← hn, ih]

theorem pySplitlines_repl_a (n : Nat) :
    pySplitlines (String.mk (List.replicate (n + 1) 'a')) =
      [String.mk (List.replicate (n + 1) 'a')] := by
  show ((if isLineBreak ((List.replicate (n + 1) 'a').getLastD 'a') = true
      then (splitBreaksAux (List.replicate (n + 1) 'a')).dropLast
      else splitBreaksAux (List.replicate (n + 1) 'a')).map String.mk) =
    [String.mk (List.replicate (n + 1) 'a')]
  rw [getLastD_replicate, if_neg (by decide), splitBreaksAux_repl_a]
  rfl

theorem listStartsWith_head_ne (c : Char) (cs : List Char) (n : Nat)
    (hc : c ≠ 'a') :
    listStartsWith (c :: cs) (List.replicate (n + 1) 'a') = false := by
  rw [List.replicate_succ]
  simp [listStartsWith, hc]

theorem listStartsWith_two_ne (c₁ c₂ : Char) (cs : List Char) (n : Nat)
    (hc : c₂ ≠ 'a') :
    listStartsWith (c₁ :: c₂ :: cs) (List.replicate (n + 1) 'a') = false := by
  rw [List.replicate_succ]
  cases n with
  | zero => simp [listStartsWith]
  | succ n =>
    rw [List.replicate_succ]
    simp [listStartsWith, hc]

theorem tryLits_repl_none (lits : List String) (n : Nat)
    (h : ∀ l ∈ lits, listStartsWith l.data (List.replicate (n + 1) 'a') = false) :
    tryLits lits (List.replicate (n + 1) 'a') = none := by
  unfold tryLits
  rw [List.findSome?_eq_none]
  intro l hl
  simp [h l hl]

theorem optGroup_repl (lits : List String) (n : Nat)
    (h : tryLits lits (List.replicate (n + 1) 'a') = none) :
    optGroup lits (List.replicate (n + 1) 'a') = [List.replicate (n + 1) 'a'] := by
  unfold optGroup
  rw [h]

theorem dropWhile_pySpace_repl (n : Nat) :
    (List.replicate (n + 1) 'a').dropWhile isPySpace = List.replicate (n + 1) 'a' := by
  rw [List.dropWhile_replicate]
  simp [show isPySpace 'a' = false from rfl]

theorem pyStrip_repl_a (n : Nat) :
    pyStrip (String.mk (List.replicate (n + 1) 'a')) =
      String.mk (List.replicate (n + 1) 'a') := by
  unfold pyStrip
  rw [data_mk, dropWhile_pySpace_repl n, List.reverse_replicate,
    dropWhile_pySpace_repl n, List.reverse_replicate]

theorem matchNamespacePattern_repl (n : Nat) :
    matchNamespacePattern (String.mk (List.replicate (n + 1) 'a')) = none := by
  unfold matchNamespacePattern
  rw [data_mk, tryLits_repl_none _ n ?ns]
  case ns =>
    intro l hl
    rcases List.mem_singleton.mp hl with rfl
    exact listStartsWith_head_ne 'n' _ n (by decide)

theorem classTail_repl (n : Nat) : classTail (List.replicate (n + 1) 'a') = none := by
  unfold classTail
  rw [dropWhile_pySpace_repl n, tryLits_repl_none _ n ?kw]
  case kw =>
    intro l hl
    fin_cases hl
    · exact listStartsWith_head_ne 'c' _ n (by decide)
    · exact listStartsWith_head_ne 'i' _ n (by decide)
    · exact listStartsWith_head_ne 's' _ n (by decide)
    · exact listStartsWith_head_ne 'r' _ n (by decide)
    · exact listStartsWith_head_ne 'e' _ n (by decide)

theorem classAfterMods1_repl (n : Nat) :
    classAfterMods1 (List.replicate (n + 1) 'a') = none := by
  unfold classAfterMods1
  rw [dropWhile_pySpace_repl n, optGroup_repl _ n ?mods2, List.findSome?_cons,
    classTail_repl n]
  case mods2 =>
    refine tryLits_repl_none _ n ?_
    intro l hl
    fin_cases hl
    · exact listStartsWith_head_ne 's' _ n (by decide)
    · exact listStartsWith_head_ne 's' _ n (by decide)
    · exact listStartsWith_two_ne 'a' 'b' _ n (by decide)
    · exact listStartsWith_head_ne 'p' _ n (by decide)
  rfl

theorem matchClassPattern_repl (n : Nat) :
    matchClassPattern (String.mk (List.replicate (n + 1) 'a')) = none := by
  unfold matchClassPattern
  rw [data_mk, optGroup_repl _ n ?mods1, List.findSome?_cons,
    classAfterMods1_repl n]
  case mods1 =>
    refine tryLits_repl_none _ n ?_
    intro l hl
    fin_cases hl
    · exact listStartsWith_head_ne 'p' _ n (by decide)
    · exact listStartsWith_head_ne 'p' _ n (by decide)
    · exact listStartsWith_head_ne 'i' _ n (by decide)
    · exact listStartsWith_head_ne 'p' _ n (by decide)
  rfl

theorem propertyCore_repl (n : Nat) :
    propertyCore (List.replicate (n + 1) 'a') = none := by
  unfold propertyCore
  rw [List.takeWhile_replicate]
  simp only [show (isMethodCls 'a') = true from rfl, if_true]
  rw [List.drop_length]

theorem propertyAfterMods1_repl (n : Nat) :
    propertyAfterMods1 (List.replicate (n + 1) 'a') = none := by
  unfold propertyAfterMods1
  rw [dropWhile_pySpace_repl n, tryLits_repl_none _ n ?mods2,
    propertyCore_repl n]
  case mods2 =>
    intro l hl
    fin_cases hl
    · exact listStartsWith_head_ne 's' _ n (by decide)
    · exact listStartsWith_head_ne 'v' _ n (by decide)
    · exact listStartsWith_head_ne 'o' _ n (by decide)

theorem matchPropertyPattern_repl (n : Nat) :
    matchPropertyPattern (String.mk (List.replicate (n + 1) 'a')) = none := by
  unfold matchPropertyPattern
  rw [data_mk, optGroup_repl _ n ?mods1, List.findSome?_cons,
    propertyAfterMods1_repl n]
  case mods1 =>
    refine tryLits_repl_none _ n ?_
    intro l hl
    fin_cases hl
    · exact listStartsWith_head_ne 'p' _ n (by decide)
    · exact listStartsWith_head_ne 'p' _ n (by decide)
    · exact listStartsWith_head_ne 'p' _ n (by decide)
    · exact listStartsWith_head_ne 'i' _ n (by decide)
  rfl

theorem strStartsWith_repl_ne (n : Nat) (p : String) (c : Char) (cs : List Char)
    (hp : p.data = c :: cs) (hc : c ≠ 'a') :
    strStartsWith (String.mk (List.replicate (n + 1) 'a')) p = false := by
  unfold strStartsWith
  rw [data_mk, hp]
  exact listStartsWith_head_ne c cs n hc

theorem charCount_repl_a (n : Nat) (c : Char) (hc : ¬ ('a' = c)) :
    charCount (String.mk (List.replicate (n + 1) 'a')) c = 0 := by
  unfold charCount
  rw [data_mk, List.countP_replicate]
  simp [hc]

theorem mk_repl_ne_empty (n : Nat) :
    String.mk (List.replicate (n + 1) 'a') ≠ "" := by
  simp [String.ext_iff]

theorem parse_structure_repl_a (n : Nat) :
    parse_structure [String.mk (List.replicate (n + 1) 'a')] =
      { usings_end := 0 } := by
  show (parseLinesAux (parseLine { st := {} } 0
      (String.mk (List.replicate (n + 1) 'a'))) 1 []).st = { usings_end := 0 }
  show (parseLine { st := {} } 0 (String.mk (List.replicate (n + 1) 'a'))).st =
    { usings_end := 0 }
  unfold parseLine
  rw [pyStrip_repl_a n]
  dsimp only
  rw [strStartsWith_repl_ne n "using " 'u' _ rfl (by decide)]
  rw [strStartsWith_repl_ne n "//" '/' _ rfl (by decide)]
  rw [matchNamespacePattern_repl n, matchClassPattern_repl n,
    matchPropertyPattern_repl n]
  rw [charCount_repl_a n '{' (by decide), charCount_repl_a n '}' (by decide)]
  simp [mk_repl_ne_empty n]

/-- Counterexample for C1: chunking a structureless 1500-character C#
line with the default configuration yields exactly one chunk whose
`embedding_text` has length 1538 — above `MAX_EMBEDDING_TEXT_LENGTH`
(1500) — because the context preamble is added after the content was
already at the limit. -/
theorem embedding_text_exceeds_limit_cex :
    ((csharp_chunk_file rtId defaultCfg "a.cs"
        (String.mk (List.replicate 1500 'a'))).map
      (fun c => c.embedding_text.length)) = [1538] ∧
    ¬ (1538 ≤ MAX_EMBEDDING_TEXT_LENGTH) := by
  refine ⟨?_, by decide⟩
  rw [show (1500 : Nat) = 1499 + 1 from rfl]
  have hlen : (String.mk (List.replicate (1499 + 1) 'a')).length = 1499 + 1 := by
    show (List.replicate (1499 + 1) 'a').length = 1499 + 1
    exact List.length_replicate _ _
  unfold csharp_chunk_file
  rw [pySplitlines_repl_a 1499]
  dsimp only
  rw [parse_structure_repl_a 1499]
  simp only [List.isEmpty_cons, Bool.false_eq_true, if_false, List.isEmpty_nil,
    Bool.not_true, Bool.or_self]
  unfold create_header_chunk chunk_by_lines split_large_content
  dsimp only [List.head?]
  rw [show ((pySplitOnChar "a.cs" '/').getLast?).getD "a.cs" = "a.cs" from rfl]
  rw [show ([String.mk (List.replicate (1499 + 1) 'a')].length + 1) = 1 + 1 from rfl]
  rw [split_large_aux]
  rw [if_pos (show 0 < [String.mk (List.replicate (1499 + 1) 'a')].length by decide)]
  dsimp only
  rw [show (([String.mk (List.replicate (1499 + 1) 'a')].take
      (min (0 + defaultCfg.max_chunk_lines)
        [String.mk (List.replicate (1499 + 1) 'a')].length)).drop 0) =
    [String.mk (List.replicate (1499 + 1) 'a')] from rfl]
  rw [show joinSep "\n" [String.mk (List.replicate (1499 + 1) 'a')] =
    String.mk (List.replicate (1499 + 1) 'a') from rfl]
  rw [if_neg (show ¬ ([String.mk (List.replicate (1499 + 1) 'a')].length >
      defaultCfg.max_chunk_lines) by decide)]
  rw [if_pos (show (String.mk (List.replicate (1499 + 1) 'a')).length ≥
      defaultCfg.min_chunk_chars by rw [hlen]; decide)]
  rw [show truncate_content defaultCfg (String.mk (List.replicate (1499 + 1) 'a')) =
    String.mk (List.replicate (1499 + 1) 'a') by
      unfold truncate_content
      rw [if_neg (by rw [hlen]; decide)]]
  rw [show (0 + defaultCfg.max_chunk_lines - defaultCfg.overlap_lines) = 12 from rfl]
  rw [split_large_aux]
  rw [if_neg (show ¬ (12 < [String.mk (List.replicate (1499 + 1) 'a')].length)
    by decide)]
  dsimp only [List.map]
  rw [create_embedding_text_length, hlen]
  decide

/-! ## C7 and C8: window coverage and window count

The fallback loop starts windows at `0, step, 2·step, …` with
`step = max_chunk_lines - overlap_lines` and emits a window only when
its content reaches `min_chunk_chars`; consecutive candidate windows
overlap, so together they cover every line, and the loop runs
`⌈lines / step⌉` times — not `⌈(lines - overlap) / step⌉` as the
specification states, because iteration continues while `i < lines`
even when the previous window already reached the end of file. -/

theorem split_large_aux_coverage (rt : Runtime) (cfg : ChunkerCfg) (fp : String)
    (lines : List String) (start : Nat) (ctx ctype ftype : String)
    (arch : List String) (hstep : cfg.overlap_lines < cfg.max_chunk_lines) :
    ∀ fuel i part ℓ, ℓ < lines.length → i ≤ ℓ → lines.length - i < fuel →
      ((window_contents_aux cfg lines i fuel).Forall
        (fun s => cfg.min_chunk_chars ≤ s.length)) →
      ∃ c ∈ split_large_aux rt cfg fp lines start ctx ctype ftype arch i part fuel,
        c.start_line ≤ ((start + ℓ : Nat) : Int) ∧
          ((start + ℓ : Nat) : Int) ≤ c.end_line := by
  intro fuel
  induction fuel with
  | zero => intro i part ℓ hℓ hi hfuel _; omega
  | succ fuel ih =>
    intro i part ℓ hℓ hi hfuel hwin
    have hin : i < lines.length := by omega
    rw [window_contents_aux, if_pos hin, List.forall_cons] at hwin
    obtain ⟨hw1, hwrest⟩ := hwin
    rw [split_large_aux, if_pos hin]
    dsimp only
    rw [if_pos (show (joinSep "\n" ((lines.take (min (i + cfg.max_chunk_lines)
        lines.length)).drop i)).length ≥ cfg.min_chunk_chars from hw1)]
    by_cases hcover : ℓ < min (i + cfg.max_chunk_lines) lines.length
    · refine ⟨_, List.mem_cons_self _ _, ?_, ?_⟩
      · dsimp only
        push_cast
        omega
      · dsimp only
        push_cast
        omega
    · have hm : min (i + cfg.max_chunk_lines) lines.length = i + cfg.max_chunk_lines := by
        rcases Nat.le_total (i + cfg.max_chunk_lines) lines.length with h | h
        · exact Nat.min_eq_left h
        · rw [Nat.min_eq_right h] at hcover
          omega
      rw [hm] at hcover
      obtain ⟨c, hc, hb⟩ := ih (i + cfg.max_chunk_lines - cfg.overlap_lines)
        (part + 1) ℓ hℓ (by omega) (by omega) hwrest
      exact ⟨c, List.mem_cons_of_mem _ hc, hb⟩

theorem split_large_aux_count (rt : Runtime) (cfg : ChunkerCfg) (fp : String)
    (lines : List String) (start : Nat) (ctx ctype ftype : String)
    (arch : List String) (hstep : cfg.overlap_lines < cfg.max_chunk_lines) :
    ∀ fuel i part, i < lines.length → lines.length - i < fuel →
      ((window_contents_aux cfg lines i fuel).Forall
        (fun s => cfg.min_chunk_chars ≤ s.length)) →
      (split_large_aux rt cfg fp lines start ctx ctype ftype arch i part fuel).length =
        (lines.length - i + (cfg.max_chunk_lines - cfg.overlap_lines) - 1) /
          (cfg.max_chunk_lines - cfg.overlap_lines) := by
  intro fuel
  induction fuel with
  | zero => intro i part hin hfuel _; omega
  | succ fuel ih =>
    intro i part hin hfuel hwin
    rw [window_contents_aux, if_pos hin, List.forall_cons] at hwin
    obtain ⟨hw1, hwrest⟩ := hwin
    rw [split_large_aux, if_pos hin]
    dsimp only
    rw [if_pos (show (joinSep "\n" ((lines.take (min (i + cfg.max_chunk_lines)
        lines.length)).drop i)).length ≥ cfg.min_chunk_chars from hw1)]
    rw [List.length_cons]
    by_cases hmore : i + cfg.max_chunk_lines - cfg.overlap_lines < lines.length
    · rw [ih _ (part + 1) hmore (by omega) hwrest]
      have hstep0 : 0 < cfg.max_chunk_lines - cfg.overlap_lines := by omega
      have h1 : lines.length - i + (cfg.max_chunk_lines - cfg.overlap_lines) - 1 =
          (lines.length - (i + cfg.max_chunk_lines - cfg.overlap_lines) +
            (cfg.max_chunk_lines - cfg.overlap_lines) - 1) +
            (cfg.max_chunk_lines - cfg.overlap_lines) := by
        omega
      rw [h1, Nat.add_div_right _ hstep0]
    · have hrest : split_large_aux rt cfg fp lines start ctx ctype ftype arch
          (i + cfg.max_chunk_lines - cfg.overlap_lines) (part + 1) fuel = [] := by
        cases fuel with
        | zero => rfl
        | succ f => rw [split_large_aux, if_neg (by omega)]
      rw [hrest, List.length_nil]
      have hdiv : (lines.length - i + (cfg.max_chunk_lines - cfg.overlap_lines) - 1) /
          (cfg.max_chunk_lines - cfg.overlap_lines) = 1 := by
        apply Nat.div_eq_of_lt_le
        · omega
        · omega
      omega

theorem split_large_aux_chunk_type (rt : Runtime) (cfg : ChunkerCfg) (fp : String)
    (lines : List String) (start : Nat) (ctx ctype ftype : String)
    (arch : List String) :
    ∀ fuel i part, ∀ c ∈ split_large_aux rt cfg fp lines start ctx ctype ftype
        arch i part fuel, c.chunk_type = ctype := by
  intro fuel
  induction fuel with
  | zero => intro i part c hc; simp [split_large_aux] at hc
  | succ fuel ih =>
    intro i part c hc
    rw [split_large_aux] at hc
    by_cases hin : i < lines.length
    · rw [if_pos hin] at hc
      dsimp only at hc
      by_cases hbig : (joinSep "\n" ((lines.take (min (i + cfg.max_chunk_lines)
          lines.length)).drop i)).length ≥ cfg.min_chunk_chars
      · rw [if_pos hbig] at hc
        rcases List.mem_cons.mp hc with rfl | hc
        · rfl
        · exact ih _ _ c hc
      · rw [if_neg hbig] at hc
        exact ih _ _ c hc
    · rw [if_neg hin] at hc
      exact absurd hc (List.not_mem_nil c)

/-- For a file whose parse found no members, `chunk_file` takes the
fallback windowing path, with no header chunk when no class was seen
either. -/
theorem chunk_file_structureless (rt : Runtime) (cfg : ChunkerCfg) (fp content : String)
    (hne : (pySplitlines content).isEmpty = false)
    (hm : (parse_structure (pySplitlines content)).methods = [])
    (hp : (parse_structure (pySplitlines content)).properties = []) :
    csharp_chunk_file rt cfg fp content =
      (match create_header_chunk rt cfg fp (pySplitlines content)
          (parse_structure (pySplitlines content)) with
       | some h => h :: chunk_by_lines rt cfg fp (pySplitlines content)
          (parse_structure (pySplitlines content))
       | none => chunk_by_lines rt cfg fp (pySplitlines content)
          (parse_structure (pySplitlines content))) := by
  unfold csharp_chunk_file
  dsimp only
  rw [hne, hm, hp]
  simp only [Bool.false_eq_true, if_false, List.isEmpty_nil, Bool.not_true,
    Bool.or_self]

/-- C7 (amended). For a structureless file (no members parsed) with
`overlap < window`, every candidate window of the fallback path covers
its lines, and when every window's content meets `min_chunk_chars`,
every line of the file lies inside the range of some emitted chunk.
The original claim fails because windows below the minimum size are
dropped (and member-mode files only cover member ranges). -/
theorem structureless_coverage (rt : Runtime) (cfg : ChunkerCfg) (fp content : String)
    (hstep : cfg.overlap_lines < cfg.max_chunk_lines)
    (hm : (parse_structure (pySplitlines content)).methods = [])
    (hp : (parse_structure (pySplitlines content)).properties = [])
    (hmin : (window_contents cfg (pySplitlines content)).Forall
      (fun s => cfg.min_chunk_chars ≤ s.length))
    (ℓ : Nat) (hℓ : ℓ < (pySplitlines content).length) :
    ∃ c ∈ csharp_chunk_file rt cfg fp content,
      c.start_line ≤ (ℓ : Int) ∧ (ℓ : Int) ≤ c.end_line := by
  have hne : (pySplitlines content).isEmpty = false := by
    cases hpc : pySplitlines content with
    | nil => rw [hpc] at hℓ; exact absurd hℓ (by simp)
    | cons a l => rfl
  rw [chunk_file_structureless rt cfg fp content hne hm hp]
  have hcov : ∃ c ∈ chunk_by_lines rt cfg fp (pySplitlines content)
      (parse_structure (pySplitlines content)),
      c.start_line ≤ (ℓ : Int) ∧ (ℓ : Int) ≤ c.end_line := by
    unfold chunk_by_lines split_large_content
    obtain ⟨c, hc, h1, h2⟩ := split_large_aux_coverage rt cfg fp
      (pySplitlines content) 0 _ "block" "cs" ARCH_INDICATORS hstep
      ((pySplitlines content).length + 1) 0 1 ℓ hℓ (by omega) (by omega) hmin
    exact ⟨c, hc, by simpa using h1, by simpa using h2⟩
  rcases hh : create_header_chunk rt cfg fp (pySplitlines content)
      (parse_structure (pySplitlines content)) with _ | hchunk
  · exact hcov
  · obtain ⟨c, hc, hb⟩ := hcov
    exact ⟨c, List.mem_cons_of_mem _ hc, hb⟩

/-- Witness for C7's amended theorem: five 2-character lines, window 3,
overlap 1, minimum 1; line 4 is covered. -/
theorem structureless_coverage_witness :
    ∃ c ∈ csharp_chunk_file rtId cfg3 "w.cs" "ab\nab\nab\nab\nab",
      c.start_line ≤ (4 : Int) ∧ (4 : Int) ≤ c.end_line :=
  structureless_coverage rtId cfg3 "w.cs" "ab\nab\nab\nab\nab" (by decide)
    (by decide) (by decide) (by rw [List.forall_iff_forall_mem]; decide)
    4 (by decide)

/-- Counterexample for C7: the single-character file `"x"` has one
line, but its only window is below `min_chunk_chars = 50` and is
dropped, so `chunk_file` returns no chunks at all and line 0 is
uncovered. -/
theorem coverage_fails_small_file_cex :
    (pySplitlines "x").length = 1 ∧
    csharp_chunk_file rtId defaultCfg "a.cs" "x" = [] ∧
    ¬ ∃ c ∈ csharp_chunk_file rtId defaultCfg "a.cs" "x",
        c.start_line ≤ (0 : Int) ∧ (0 : Int) ≤ c.end_line := by
  refine ⟨by decide, by decide, ?_⟩
  rintro ⟨c, hc, -⟩
  rw [show csharp_chunk_file rtId defaultCfg "a.cs" "x" = [] by decide] at hc
  exact absurd hc (List.not_mem_nil c)

/-- C8 (amended). A structureless file (no members, no classes)
whose windows all meet the minimum chunk size yields exactly
`⌈lines / (window - overlap)⌉` chunks — not
`⌈(lines - overlap) / (window - overlap)⌉` — each with chunk type
`"block"`. -/
theorem structureless_window_count (rt : Runtime) (cfg : ChunkerCfg)
    (fp content : String)
    (hstep : cfg.overlap_lines < cfg.max_chunk_lines)
    (hne : (pySplitlines content).isEmpty = false)
    (hm : (parse_structure (pySplitlines content)).methods = [])
    (hp : (parse_structure (pySplitlines content)).properties = [])
    (hcl : (parse_structure (pySplitlines content)).classes = [])
    (hmin : (window_contents cfg (pySplitlines content)).Forall
      (fun s => cfg.min_chunk_chars ≤ s.length)) :
    (csharp_chunk_file rt cfg fp content).length =
      ((pySplitlines content).length + (cfg.max_chunk_lines - cfg.overlap_lines) - 1) /
        (cfg.max_chunk_lines - cfg.overlap_lines) ∧
    (csharp_chunk_file rt cfg fp content).Forall (fun c => c.chunk_type = "block") := by
  have hlen : 0 < (pySplitlines content).length := by
    rw [List.length_pos]
    intro habs
    rw [habs] at hne
    exact absurd hne (by simp)
  have hheader : create_header_chunk rt cfg fp (pySplitlines content)
      (parse_structure (pySplitlines content)) = none := by
    unfold create_header_chunk
    rw [hcl]
    rfl
  rw [chunk_file_structureless rt cfg fp content hne hm hp, hheader]
  constructor
  · unfold chunk_by_lines split_large_content
    dsimp only
    rw [split_large_aux_count rt cfg fp (pySplitlines content) 0 _ "block" "cs"
      ARCH_INDICATORS hstep ((pySplitlines content).length + 1) 0 1 hlen
      (by omega) hmin, Nat.sub_zero]
  · rw [List.forall_iff_forall_mem]
    intro c hc
    unfold chunk_by_lines split_large_content at hc
    exact split_large_aux_chunk_type rt cfg fp (pySplitlines content) 0 _ "block"
      "cs" ARCH_INDICATORS _ _ _ c hc

/-- Witness for C8's amended theorem: five 2-character lines, window 3,
overlap 1, minimum 1 give `⌈5 / 2⌉ = 3` block chunks. -/
theorem structureless_window_count_witness :
    (csharp_chunk_file rtId cfg3 "w.cs" "ab\nab\nab\nab\nab").length =
      ((pySplitlines "ab\nab\nab\nab\nab").length +
        (cfg3.max_chunk_lines - cfg3.overlap_lines) - 1) /
        (cfg3.max_chunk_lines - cfg3.overlap_lines) ∧
    (csharp_chunk_file rtId cfg3 "w.cs" "ab\nab\nab\nab\nab").Forall
      (fun c => c.chunk_type = "block") :=
  structureless_window_count rtId cfg3 "w.cs" "ab\nab\nab\nab\nab" (by decide)
    (by decide) (by decide) (by decide) (by decide)
    (by rw [List.forall_iff_forall_mem]; decide)

set_option maxRecDepth 40000 in
/-- Counterexample for C8: 27 structureless lines of 17 characters with
the default configuration (window 15, overlap 3) yield 3 chunks —
windows start at 0, 12 and 24 — but the claimed formula gives
`⌈(27 - 3) / 12⌉ = 2`. -/
theorem window_count_formula_cex :
    (pySplitlines c27).length = 27 ∧
    (csharp_chunk_file rtId defaultCfg "b.cs" c27).length = 3 ∧
    ¬ ((csharp_chunk_file rtId defaultCfg "b.cs" c27).length =
      ((pySplitlines c27).length - defaultCfg.overlap_lines +
        (defaultCfg.max_chunk_lines - defaultCfg.overlap_lines) - 1) /
        (defaultCfg.max_chunk_lines - defaultCfg.overlap_lines)) := by
  decide

/-- One queue step preserves the sum of the semaphore counter and the
number of requests past the gate. -/
theorem queueStep_sum_invariant {s t : QueueState} (h : QueueStep s t) :
    t.semCount + t.activeRequests = s.semCount + s.activeRequests := by
  cases h with
  | acquire h => simp; omega
  | release h => simp; omega

/-- In every state reachable from `queueInit k`, the semaphore counter
plus the active-request count equals `k`. -/
theorem queueReachable_sum {k : Nat} {s : QueueState}
    (h : QueueReachable k s) : s.semCount + s.activeRequests = k := by
  induction h with
  | refl => rfl
  | tail _ hstep ih => rw [queueStep_sum_invariant hstep]; exact ih

/-- C10. With `max_concurrent = k`, at no reachable state are more
than `k` requests simultaneously past the admission gate (between a
completed `acquire` and the matching `release`), regardless of how
many caller threads run concurrently. -/
theorem rate_limited_queue_bounds_active (k : Nat) (s : QueueState)
    (h : QueueReachable k s) : s.activeRequests ≤ k := by
  have := queueReachable_sum h
  omega

/-- Witness for C10: after two acquires and one release under
`max_concurrent = 2`, the reached state has at most 2 active
requests. -/
theorem rate_limited_queue_bounds_active_witness :
    (QueueState.mk 1 1).activeRequests ≤ 2 := by
  refine rate_limited_queue_bounds_active 2 ⟨1, 1⟩ ?_
  have h1 : QueueStep (queueInit 2) ⟨1, 1⟩ := by
    have := QueueStep.acquire (queueInit 2) (by decide)
    simpa [queueInit] using this
  exact Relation.ReflTransGen.single h1

end RepoLens
